import Mathlib

/-!
A verification development for the CaptureCardGaming capture/render core.

The Rust sources are embedded shallowly:
* machine integers are modelled as `Nat` (with explicit checked arithmetic
  where the source uses `checked_mul`, and saturating subtraction matching
  Rust `saturating_sub` via `Nat` subtraction);
* `f32`/`f64` arithmetic appearing in format negotiation and aspect
  computation is modelled over `ℚ`; every concrete comparison proved below
  is exact (differences of 0 or of integral magnitude), so the rational
  model agrees with the floating-point evaluation on these inputs;
* byte buffers are `List Nat`;
* fallible functions return `Option` or `Except String`.
-/

namespace CaptureCard

/-! ## Shared data types (src/types.rs) -/

inductive VideoFormat where
  | Rgba
  | Yuyv
  | Nv12
deriving Repr, DecidableEq

inductive ColorMatrix where
  | Bt601
  | Bt709
  | Bt2020
deriving Repr, DecidableEq

inductive ColorRange where
  | Limited
  | Full
deriving Repr, DecidableEq

structure ColorInfo where
  matrix : ColorMatrix
  range : ColorRange
deriving Repr, DecidableEq

/-- `ColorInfo::default_for_size` (src/types.rs): width ≥ 1280 picks Bt709,
otherwise Bt601; the range defaults to Limited. -/
def ColorInfo.default_for_size (width : Nat) : ColorInfo :=
  { matrix := if width ≥ 1280 then ColorMatrix.Bt709 else ColorMatrix.Bt601
    range := ColorRange.Limited }

/-- `VideoFrame` (src/types.rs); the payload ownership tag is irrelevant to the
claims below, so `data` is the byte content itself. -/
structure VideoFrame where
  width : Nat
  height : Nat
  format : VideoFormat
  stride : Nat
  uv_stride : Nat
  color : ColorInfo
  data : List Nat
deriving Repr, DecidableEq

/-! ## Aspect-correct vertex scaling (src/render.rs, `update_vertices`) -/

/-- The `(sx, sy)` scale pair computed by `RenderState::update_vertices`
(src/render.rs lines 962-1004). `none` models the early `return`s that leave
the vertex buffer untouched (non-positive window or video dimensions). -/
def update_vertices_scale (aspectCorrect : Bool) (windowW windowH videoW videoH : ℚ) :
    Option (ℚ × ℚ) :=
  if windowW ≤ 0 ∨ windowH ≤ 0 then none
  else if aspectCorrect then
    if videoW ≤ 0 ∨ videoH ≤ 0 then none
    else
      let windowAspect := windowW / windowH
      let videoAspect := videoW / videoH
      if windowAspect ≥ videoAspect then some (videoAspect / windowAspect, 1)
      else some (1, windowAspect / videoAspect)
  else some (1, 1)

/-! ## Capture session stop (src/platform/mod.rs, `VideoCapture::stop`) -/

/-- The state of a `VideoCapture` relevant to `stop`, with ghost counters
recording how many times the stop flag was stored and the thread joined. -/
structure VideoCaptureState where
  stopFlag : Bool
  thread : Option Nat
  storeCount : Nat
  joinCount : Nat
deriving Repr, DecidableEq

/-- `VideoCapture::stop` (src/platform/mod.rs lines 40-45): if the thread
handle is still present, take it, store the stop flag and join; otherwise do
nothing. `Drop` calls the same function. -/
def VideoCapture.stop (s : VideoCaptureState) : VideoCaptureState :=
  match s.thread with
  | some _ =>
      { stopFlag := true
        thread := none
        storeCount := s.storeCount + 1
        joinCount := s.joinCount + 1 }
  | none => s

/-! ## Nv12 plane split in the upload path (src/render.rs, `upload_frame`) -/

/-- The three slice bounds computed by the Nv12 branch of
`RenderState::upload_frame` (src/render.rs lines 646-668):
`y_bytes` (end of the `&data[..y_bytes]` slice), `uv_start` and
`uv_start + uv_len` (bounds of the `&data[uv_start..uv_start + uv_len]`
slice). `Nat` subtraction matches Rust `saturating_sub`. -/
def nv12_split_bounds (stride uvStride height dataLen : Nat) : Nat × Nat × Nat :=
  let yBytes := min (stride * height) dataLen
  let uvHeight := (height + 1) / 2
  let uvBytes := uvStride * uvHeight
  let uvStart := yBytes
  let uvLen := min uvBytes (dataLen - uvStart)
  (yBytes, uvStart, uvStart + uvLen)

/-- The Nv12 plane split itself: the Y-plane and UV-plane byte slices handed
to `write_texture_padded`. -/
def nv12_split (stride uvStride height : Nat) (data : List Nat) :
    List Nat × List Nat :=
  let b := nv12_split_bounds stride uvStride height data.length
  (data.take b.1, (data.drop b.2.1).take (b.2.2 - b.2.1))

/-! ## Format negotiation (src/platform/linux.rs, `select_format`) -/

inductive Fourcc where
  | NV12
  | YUYV
  | MJPG
  | Other
deriving Repr, DecidableEq

/-- `FormatChoice` (src/platform/linux.rs lines 109-115). `fps` is the `f64`
frame rate, modelled in `ℚ`. -/
structure FormatChoice where
  fourcc : Fourcc
  width : Nat
  height : Nat
  fps : Option ℚ
deriving Repr, DecidableEq

/-- `format_rank` (src/platform/linux.rs lines 117-127). -/
def format_rank : Fourcc → Nat
  | Fourcc.NV12 => 3
  | Fourcc.YUYV => 2
  | Fourcc.MJPG => 1
  | Fourcc.Other => 0

/-- `compare_choice` (src/platform/linux.rs lines 129-146): area first, then
fps when the difference exceeds 0.1, then the layout rank. `partial_cmp` on
non-NaN floats is the total order on `ℚ`. -/
def compare_choice (a b : FormatChoice) : Ordering :=
  let areaA := a.width * a.height
  let areaB := b.width * b.height
  if areaA < areaB then Ordering.lt
  else if areaB < areaA then Ordering.gt
  else
    let fpsA := (a.fps).getD 0
    let fpsB := (b.fps).getD 0
    if |fpsA - fpsB| > 1 / 10 then
      if fpsA < fpsB then Ordering.lt
      else if fpsB < fpsA then Ordering.gt
      else Ordering.eq
    else
      if format_rank a.fourcc < format_rank b.fourcc then Ordering.lt
      else if format_rank b.fourcc < format_rank a.fourcc then Ordering.gt
      else Ordering.eq

/-- Stable insertion step for the model of slice `sort_by`. -/
def insertByCmp (cmp : FormatChoice → FormatChoice → Ordering) (x : FormatChoice) :
    List FormatChoice → List FormatChoice
  | [] => [x]
  | y :: ys =>
      if cmp x y = Ordering.gt then y :: insertByCmp cmp x ys else x :: y :: ys

/-- Stable sort by a comparator, ascending: the model of Rust's stable
`sort_by`. -/
def sortByCmp (cmp : FormatChoice → FormatChoice → Ordering) :
    List FormatChoice → List FormatChoice
  | [] => []
  | x :: xs => insertByCmp cmp x (sortByCmp cmp xs)

/-- The `f32` aspect ratio `c.width as f32 / c.height as f32`, in `ℚ`. -/
def aspect_ratio (c : FormatChoice) : ℚ := (c.width : ℚ) / (c.height : ℚ)

/-- Rust `Iterator::max_by_key` on the area: among equal maxima the LAST
element wins. -/
def max_by_area_last : List FormatChoice → Option FormatChoice
  | [] => none
  | c :: rest =>
      match max_by_area_last rest with
      | none => some c
      | some m =>
          if m.width * m.height < c.width * c.height then some c else some m

/-- The aspect-ratio filter of `select_format` (src/platform/linux.rs lines
195-211): keep candidates within 0.02 of the largest-area candidate's aspect
ratio, unless that would eliminate everything. -/
def filter_aspect (choices : List FormatChoice) : List FormatChoice :=
  match max_by_area_last choices with
  | none => choices
  | some m =>
      let preferred := aspect_ratio m
      let filtered :=
        choices.filter (fun c => decide (|aspect_ratio c - preferred| < 1 / 50))
      if filtered.isEmpty then choices else filtered

/-- The max-size filter of `select_format` (src/platform/linux.rs lines
212-221): drop candidates exceeding the cap in either dimension, unless that
would eliminate everything. -/
def filter_max_size (choices : List FormatChoice) :
    Option (Nat × Nat) → List FormatChoice
  | none => choices
  | some (maxW, maxH) =>
      let filtered :=
        choices.filter (fun c => decide (c.width ≤ maxW) && decide (c.height ≤ maxH))
      if filtered.isEmpty then choices else filtered

/-- The ranked candidate list of `select_format`: aspect filter, then size
filter, then `choices.sort_by(|a, b| compare_choice(b, a))` (descending). -/
def select_format_ranked (choices : List FormatChoice)
    (maxSize : Option (Nat × Nat)) : List FormatChoice :=
  sortByCmp (fun a b => compare_choice b a)
    (filter_max_size (filter_aspect choices) maxSize)

/-- `select_format` restricted to its candidate-ranking core (src/platform/
linux.rs lines 181-230): the first ranked candidate the device accepts. The
source's trailing fallback to the device's current format only runs when no
candidate is accepted. -/
def select_format (choices : List FormatChoice) (maxSize : Option (Nat × Nat))
    (accepts : FormatChoice → Bool) : Option FormatChoice :=
  (select_format_ranked choices maxSize).find? accepts

/-! ## Single-slot frame channel
(`crossbeam_channel::bounded(1)` in src/platform/mod.rs line 132; the worker
loop body in src/platform/linux.rs lines 292-354; the consumer drain in
src/app.rs `take_latest_frame` lines 132-144)

Frames are identified by `Nat` ids.  The state carries two ghost fields:
`sent`, the frames that actually entered the slot, and `observed`, the
frames the consumer has taken across all polls. -/

structure ChanState where
  slot : Option Nat
  sent : List Nat
  drops : Nat
  framesCount : Nat
  observed : List Nat
deriving Repr, DecidableEq

def ChanState.start : ChanState := ⟨none, [], 0, 0, []⟩

/-- `Sender::try_send` on a capacity-1 channel: succeeds exactly when the
slot is empty. -/
def trySend (s : ChanState) (f : Nat) : ChanState × Bool :=
  match s.slot with
  | none => ({ s with slot := some f, sent := s.sent ++ [f] }, true)
  | some _ => (s, false)

/-- `drop_rx.try_recv()` as used by the worker: the stale entry is drained
and discarded (never reaches the consumer). -/
def dropRecv (s : ChanState) : ChanState := { s with slot := none }

/-- One iteration of the capture worker loop for a captured frame `f`
(src/platform/linux.rs lines 292-354, identically lines 557-629 and
src/platform/windows.rs lines 98-186): if the slot is still occupied
(`!drop_rx.is_empty()`), count a drop (when stats are on) and skip the
frame; otherwise record the frame for stats and `try_send` it, and on a
(concurrency-only) send failure drain the stale entry, count a drop, and
re-send. -/
def workerIter (statsOn : Bool) (s : ChanState) (f : Nat) : ChanState :=
  if s.slot.isSome then
    if statsOn then { s with drops := s.drops + 1 } else s
  else
    let s1 := if statsOn then { s with framesCount := s.framesCount + 1 } else s
    match trySend s1 f with
    | (s2, true) => s2
    | (s2, false) =>
        let s3 := dropRecv s2
        let s4 := if statsOn then { s3 with drops := s3.drops + 1 } else s3
        (trySend s4 f).1

/-- One consumer poll: `take_latest_frame` drains the channel with
`try_recv` until empty; on a capacity-1 channel that takes the slot's frame
when present. -/
def pollChan (s : ChanState) : ChanState :=
  match s.slot with
  | some f => { s with slot := none, observed := s.observed ++ [f] }
  | none => s

inductive ChanEvent where
  | produce (f : Nat)
  | poll
deriving Repr, DecidableEq

def chanStep (statsOn : Bool) (s : ChanState) : ChanEvent → ChanState
  | ChanEvent.produce f => workerIter statsOn s f
  | ChanEvent.poll => pollChan s

def runChan (statsOn : Bool) (s : ChanState) (evs : List ChanEvent) : ChanState :=
  evs.foldl (chanStep statsOn) s

/-- The number of frames the worker produced in an event trace. -/
def produceCount : List ChanEvent → Nat
  | [] => 0
  | ChanEvent.produce _ :: rest => produceCount rest + 1
  | ChanEvent.poll :: rest => produceCount rest

/-! ## Color info from GStreamer caps (src/platform/linux.rs,
`color_info_from_gst`, lines 428-448) -/

inductive GstRange where
  | range0_255
  | range16_235
  | unknown
deriving Repr, DecidableEq

inductive GstMatrix where
  | bt709
  | bt2020
  | bt601
  | fcc
  | smpte240m
  | unknown
deriving Repr, DecidableEq

/-- `color_info_from_gst`: start from the resolution default, force Full
range for an MJPG source, then override range and matrix with whatever the
caps colorimetry explicitly signals. -/
def color_info_from_gst (width : Nat) (crange : GstRange) (cmatrix : GstMatrix)
    (sourceIsMjpg : Bool) : ColorInfo :=
  let out := ColorInfo.default_for_size width
  let out := if sourceIsMjpg then { out with range := ColorRange.Full } else out
  let out :=
    { out with
      range :=
        match crange with
        | GstRange.range0_255 => ColorRange.Full
        | GstRange.range16_235 => ColorRange.Limited
        | GstRange.unknown => out.range }
  { out with
    matrix :=
      match cmatrix with
      | GstMatrix.bt709 => ColorMatrix.Bt709
      | GstMatrix.bt2020 => ColorMatrix.Bt2020
      | GstMatrix.bt601 => ColorMatrix.Bt601
      | GstMatrix.fcc => ColorMatrix.Bt601
      | GstMatrix.smpte240m => ColorMatrix.Bt601
      | GstMatrix.unknown => out.matrix }

/-! ## Frame construction on every capture path
(src/platform/linux.rs lines 265-342 and 591-620,
src/platform/windows.rs lines 139-173, src/pixel.rs `bgra_to_rgba`) -/

/-- The plane-0 stride of the raw V4L path (src/platform/linux.rs lines
274-281): the device-reported stride, or `width*2` for YUYV / `width`
otherwise when the device reports 0. -/
def linuxRawStride (fourcc : Fourcc) (width fmtStride : Nat) : Nat :=
  if fmtStride = 0 then (if fourcc = Fourcc.YUYV then width * 2 else width)
  else fmtStride

/-- The `VideoFrame` built by one iteration of the raw V4L capture loop
(src/platform/linux.rs lines 307-342). `decodeResult` is the outcome of
`decode_mjpeg` on the captured bytes for the MJPG branch; `none` models the
`continue`s (decode failure or an unknown fourcc). -/
def linuxRawFrame (fourcc : Fourcc) (width height fmtStride : Nat)
    (decodeResult : Option (Nat × Nat × List Nat)) (slice : List Nat) :
    Option VideoFrame :=
  let stride := linuxRawStride fourcc width fmtStride
  match fourcc with
  | Fourcc.YUYV =>
      some ⟨width, height, VideoFormat.Yuyv, stride, 0,
        ColorInfo.default_for_size width, slice⟩
  | Fourcc.NV12 =>
      some ⟨width, height, VideoFormat.Nv12, stride, stride,
        ColorInfo.default_for_size width, slice⟩
  | Fourcc.MJPG =>
      match decodeResult with
      | some (w, h, rgba) =>
          some ⟨w, h, VideoFormat.Rgba, w * 4, 0,
            ColorInfo.default_for_size w, rgba⟩
      | none => none
  | Fourcc.Other => none

/-- The negotiated `GstVideoFormat` of the hardware-decode pipeline's
appsink caps. -/
inductive GstVideoFormatV where
  | nv12
  | yuy2
  | rgba
  | other
deriving Repr, DecidableEq

/-- The `VideoFrame` built by one iteration of the GStreamer capture loop
(src/platform/linux.rs lines 591-620); `stride0`/`stride1` are
`info.stride()[0]`/`info.stride()[1]` and `color` the cached
`color_info_from_gst` result. `none` models the `continue` on an
unsupported format. -/
def gstFrame (gfmt : GstVideoFormatV) (width height stride0 stride1 : Nat)
    (color : ColorInfo) (buf : List Nat) : Option VideoFrame :=
  match gfmt with
  | GstVideoFormatV.nv12 =>
      some ⟨width, height, VideoFormat.Nv12, stride0, stride1, color, buf⟩
  | GstVideoFormatV.yuy2 =>
      some ⟨width, height, VideoFormat.Yuyv, stride0, 0, color, buf⟩
  | GstVideoFormatV.rgba =>
      some ⟨width, height, VideoFormat.Rgba, stride0, 0, color, buf⟩
  | GstVideoFormatV.other => none

/-- Inner pixel loop of `pixel::bgra_to_rgba` (src/pixel.rs lines 87-103):
swap B and R of each 4-byte pixel of a row, forcing alpha to 255. -/
def bgraPixelsFrom (src : List Nat) (rowStart : Nat) : Nat → Nat → List Nat
  | _, 0 => []
  | x, Nat.succ k =>
      src.getD (rowStart + x * 4 + 2) 0 :: src.getD (rowStart + x * 4 + 1) 0 ::
        src.getD (rowStart + x * 4) 0 :: 255 :: bgraPixelsFrom src rowStart (x + 1) k

/-- Row loop of `pixel::bgra_to_rgba`. -/
def bgraRowsFrom (src : List Nat) (stride width : Nat) : Nat → Nat → List Nat
  | _, 0 => []
  | y, Nat.succ k =>
      bgraPixelsFrom src (y * stride) 0 width ++
        bgraRowsFrom src stride width (y + 1) k

/-- `pixel::bgra_to_rgba` (src/pixel.rs lines 87-103). -/
def bgra_to_rgba (width height stride : Nat) (src : List Nat) : List Nat :=
  bgraRowsFrom src stride width 0 height

/-- The Media Foundation subtype negotiated by `configure_reader`. -/
inductive MfSubtype where
  | nv12
  | yuy2
  | rgb32
  | other
deriving Repr, DecidableEq

/-- The `VideoFrame` built by one iteration of the Media Foundation capture
loop (src/platform/windows.rs lines 139-173); `none` models the `continue`
on an unknown subtype. -/
def windowsFrame (subtype : MfSubtype) (width height stride : Nat)
    (data : List Nat) : Option VideoFrame :=
  match subtype with
  | MfSubtype.nv12 =>
      some ⟨width, height, VideoFormat.Nv12, stride, stride,
        ColorInfo.default_for_size width, data⟩
  | MfSubtype.yuy2 =>
      some ⟨width, height, VideoFormat.Yuyv, stride, 0,
        ColorInfo.default_for_size width, data⟩
  | MfSubtype.rgb32 =>
      some ⟨width, height, VideoFormat.Rgba, width * 4, 0,
        ColorInfo.default_for_size width, bgra_to_rgba width height stride data⟩
  | MfSubtype.other => none

/-! ## Row-padding repack (src/render.rs, `write_texture_padded`,
lines 911-960) -/

def COPY_BYTES_PER_ROW_ALIGNMENT : Nat := 256

/-- `bytes_per_row.div_ceil(align) * align`. -/
def paddedStrideOf (bytesPerRow : Nat) : Nat :=
  ((bytesPerRow + COPY_BYTES_PER_ROW_ALIGNMENT - 1) / COPY_BYTES_PER_ROW_ALIGNMENT) *
    COPY_BYTES_PER_ROW_ALIGNMENT

/-- Rust `Vec::resize(n, v)`: truncate to `n` elements or extend with
copies of `v`. Existing elements are NOT overwritten — only growth is
filled with `v`. -/
def vecResize (l : List Nat) (n : Nat) (v : Nat) : List Nat :=
  if n ≤ l.length then l.take n else l ++ List.replicate (n - l.length) v

/-- One row of the staging buffer after the repack loop of
`write_texture_padded`: the source-row bytes actually present
(`data[row_start..row_end]` with `row_end` clamped to `data.len()`)
overwrite the row's prefix in place; the rest of the row keeps whatever
bytes `staged` — the reused `self.staging` vector after its `resize`, which
zero-fills only newly added elements — already held at those positions.
The loop's `break` once `row_start >= data.len()` leaves later rows
entirely untouched, which this definition reproduces with an empty
`present` part. -/
def repackRow (bytesPerRow paddedStride : Nat) (data staged : List Nat)
    (y : Nat) : List Nat :=
  let present := (data.drop (y * bytesPerRow)).take bytesPerRow
  present ++ (staged.drop (y * paddedStride + present.length)).take
    (paddedStride - present.length)

/-- The rows `y, y+1, ..., y+k-1` of the staging buffer, concatenated. -/
def repackRowsFrom (bytesPerRow paddedStride : Nat) (data staged : List Nat) :
    Nat → Nat → List Nat
  | _, 0 => []
  | y, Nat.succ k =>
      repackRow bytesPerRow paddedStride data staged y ++
        repackRowsFrom bytesPerRow paddedStride data staged (y + 1) k

/-- The outcome of one `write_texture_padded` call: the bytes handed to
`queue.write_texture`, the `bytes_per_row` it declares, and the contents of
the persistent `self.staging` vector afterwards. -/
structure WriteTextureResult where
  uploaded : List Nat
  rowStride : Nat
  staging : List Nat
deriving Repr, DecidableEq

/-- `write_texture_padded` (src/render.rs lines 911-960), as a function of
the incoming bytes AND the reused `self.staging` buffer. The fast path
clears the staging and uploads `data` unchanged when the stride is already
aligned and no fill is needed; otherwise the staging is resized to
`padded_stride * height` (zero-filling only growth, keeping existing
bytes) and each row's present prefix is overwritten in place. -/
def write_texture_padded (bytesPerRow height : Nat) (data staging : List Nat) :
    WriteTextureResult :=
  let expected := bytesPerRow * height
  let needsPad := bytesPerRow % COPY_BYTES_PER_ROW_ALIGNMENT ≠ 0
  let needsFill := data.length < expected
  if ¬needsPad ∧ ¬needsFill then ⟨data, bytesPerRow, []⟩
  else
    let p := paddedStrideOf bytesPerRow
    let staged := vecResize staging (p * height) 0
    let out := repackRowsFrom bytesPerRow p data staged 0 height
    ⟨out, p, out⟩

/-! ## Software MJPEG decode (src/platform/linux.rs, `decode_mjpeg`,
`rgb24_to_rgba`, `l8_to_rgba`, lines 359-426) -/

def USIZE_MAX : Nat := 2 ^ 64 - 1

/-- `usize::checked_mul`. -/
def checkedMul (a b : Nat) : Option Nat :=
  if a * b ≤ USIZE_MAX then some (a * b) else none

/-- The `jpeg_decoder::PixelFormat` of the decoded output; `other` covers
`CMYK32` and any future variant. -/
inductive JpegPixelFormat where
  | RGB24
  | L8
  | other
deriving Repr, DecidableEq

/-- Pointer loop of `rgb24_to_rgba` (src/platform/linux.rs lines 359-376):
the source pointer advances 3 bytes per pixel, the destination receives
R, G, B, 255. -/
def rgb24From (pixels : List Nat) : Nat → Nat → List Nat
  | _, 0 => []
  | i, Nat.succ k =>
      pixels.getD (3 * i) 0 :: pixels.getD (3 * i + 1) 0 ::
        pixels.getD (3 * i + 2) 0 :: 255 :: rgb24From pixels (i + 1) k

/-- `rgb24_to_rgba` (src/platform/linux.rs lines 359-376). -/
def rgb24_to_rgba (pixels : List Nat) (pixelCount : Nat) : List Nat :=
  rgb24From pixels 0 pixelCount

/-- Pointer loop of `l8_to_rgba` (src/platform/linux.rs lines 378-396): one
luminance byte expands to V, V, V, 255. -/
def l8From (pixels : List Nat) : Nat → Nat → List Nat
  | _, 0 => []
  | i, Nat.succ k =>
      pixels.getD i 0 :: pixels.getD i 0 :: pixels.getD i 0 :: 255 ::
        l8From pixels (i + 1) k

/-- `l8_to_rgba` (src/platform/linux.rs lines 378-396). -/
def l8_to_rgba (pixels : List Nat) (pixelCount : Nat) : List Nat :=
  l8From pixels 0 pixelCount

/-- `decode_mjpeg` (src/platform/linux.rs lines 398-426), parametrized by
the `jpeg_decoder` library's output: the decoded pixel format, the decoded
pixel bytes, and the image info's width and height (`u16` fields cast up in
the source). -/
def decode_mjpeg (pfmt : JpegPixelFormat) (pixels : List Nat)
    (width height : Nat) : Except String (Nat × Nat × List Nat) :=
  match checkedMul width height with
  | none => Except.error "MJPEG size overflow"
  | some pixelCount =>
      match pfmt with
      | JpegPixelFormat.RGB24 =>
          match checkedMul pixelCount 3 with
          | none => Except.error "MJPEG size overflow"
          | some expected =>
              if pixels.length < expected then
                Except.error "MJPEG RGB size mismatch"
              else
                Except.ok (width, height,
                  rgb24_to_rgba (pixels.take expected) pixelCount)
      | JpegPixelFormat.L8 =>
          if pixels.length < pixelCount then
            Except.error "MJPEG L8 size mismatch"
          else
            Except.ok (width, height,
              l8_to_rgba (pixels.take pixelCount) pixelCount)
      | JpegPixelFormat.other => Except.error "Unsupported MJPEG pixel format"

/-- Candidate `(1920×1080, Nv12, 60fps)` from the claim's candidate set. -/
def cand_nv12_1080 : FormatChoice := ⟨Fourcc.NV12, 1920, 1080, some 60⟩

/-- Candidate `(1920×1080, Yuyv, 30fps)` from the claim's candidate set. -/
def cand_yuyv_1080 : FormatChoice := ⟨Fourcc.YUYV, 1920, 1080, some 30⟩

/-- Candidate `(1280×720, Mjpeg, 60fps)` from the claim's candidate set. -/
def cand_mjpg_720 : FormatChoice := ⟨Fourcc.MJPG, 1280, 720, some 60⟩

end CaptureCard

namespace CaptureCard

/-! ## Theorems -/

/-- **C6.** For every positive window size and video size with aspect
correction enabled: if the window aspect is at least the content aspect the
computed scale pair is `(content_aspect/window_aspect, 1)`; if the window
aspect is smaller it is `(1, window_aspect/content_aspect)`; with aspect
correction disabled the scale pair is always `(1, 1)`. -/
theorem update_vertices_aspect_scale (windowW windowH videoW videoH : ℚ)
    (hww : 0 < windowW) (hwh : 0 < windowH) (hvw : 0 < videoW) (hvh : 0 < videoH) :
    (windowW / windowH ≥ videoW / videoH →
      update_vertices_scale true windowW windowH videoW videoH =
        some ((videoW / videoH) / (windowW / windowH), 1)) ∧
    (windowW / windowH < videoW / videoH →
      update_vertices_scale true windowW windowH videoW videoH =
        some (1, (windowW / windowH) / (videoW / videoH))) ∧
    update_vertices_scale false windowW windowH videoW videoH = some (1, 1) := by
  have h1 : ¬(windowW ≤ 0 ∨ windowH ≤ 0) := by push_neg; exact ⟨hww, hwh⟩
  have h2 : ¬(videoW ≤ 0 ∨ videoH ≤ 0) := by push_neg; exact ⟨hvw, hvh⟩
  refine ⟨fun hge => ?_, fun hlt => ?_, ?_⟩
  · simp [update_vertices_scale, h1, h2, hge]
  · simp [update_vertices_scale, h1, h2, not_le.mpr hlt]
  · simp [update_vertices_scale, h1]

/-- Witness for C6 at a concrete input: a 16:9 window showing 4:3 content is
pillarboxed with horizontal scale 3/4. -/
theorem update_vertices_aspect_scale_witness :
    (0 : ℚ) < 16 ∧ (0 : ℚ) < 9 ∧ (0 : ℚ) < 4 ∧ (0 : ℚ) < 3 ∧
    update_vertices_scale true 16 9 4 3 = some (3 / 4, 1) := by
  refine ⟨by norm_num, by norm_num, by norm_num, by norm_num, ?_⟩
  have h := (update_vertices_aspect_scale 16 9 4 3 (by norm_num) (by norm_num)
    (by norm_num) (by norm_num)).1 (by norm_num)
  rw [h]
  norm_num

/-- **C8.** `stop` is idempotent: composing `stop` with itself equals `stop`.
In particular a second call leaves the state (including the ghost counters of
flag stores and thread joins) unchanged, so it performs no further
signalling or joining. -/
theorem videoCapture_stop_idempotent (s : VideoCaptureState) :
    VideoCapture.stop (VideoCapture.stop s) = VideoCapture.stop s := by
  cases h : s.thread <;> simp [VideoCapture.stop, h]

/-- **C10.** In the Nv12 branch of the upload path, all slice indices are in
bounds for every input buffer length: the Y-slice end, the UV-slice start and
the UV-slice end computed by `nv12_split_bounds` never exceed the buffer
length and are mutually ordered, so the split never panics; moreover the two
slices produced have exactly the clamped lengths. -/
theorem nv12_split_in_bounds (stride uvStride height dataLen : Nat) :
    (nv12_split_bounds stride uvStride height dataLen).1 ≤ dataLen ∧
    (nv12_split_bounds stride uvStride height dataLen).2.1 ≤
      (nv12_split_bounds stride uvStride height dataLen).2.2 ∧
    (nv12_split_bounds stride uvStride height dataLen).2.2 ≤ dataLen := by
  simp only [nv12_split_bounds]
  omega

/-- The channel accounting measure: drops, frames observed, plus one for an
undrained slot. -/
def chanMeasure (s : ChanState) : Nat :=
  s.drops + s.observed.length + (if s.slot.isSome then 1 else 0)

theorem workerIter_chanMeasure (s : ChanState) (f : Nat) :
    chanMeasure (workerIter true s f) = chanMeasure s + 1 := by
  cases h : s.slot with
  | none => simp [workerIter, trySend, dropRecv, chanMeasure, h]
  | some x =>
      simp [workerIter, chanMeasure, h]
      omega

theorem pollChan_chanMeasure (s : ChanState) :
    chanMeasure (pollChan s) = chanMeasure s := by
  cases h : s.slot with
  | none => simp [pollChan, chanMeasure, h]
  | some x =>
      simp [pollChan, chanMeasure, h]
      omega

theorem runChan_chanMeasure (evs : List ChanEvent) :
    ∀ s : ChanState, chanMeasure (runChan true s evs) = chanMeasure s + produceCount evs := by
  induction evs with
  | nil => intro s; simp [runChan, produceCount]
  | cons e rest ih =>
      intro s
      cases e with
      | produce f =>
          have h := ih (workerIter true s f)
          simp only [runChan, List.foldl, chanStep] at h ⊢
          rw [h, workerIter_chanMeasure, produceCount]
          omega
      | poll =>
          have h := ih (pollChan s)
          simp only [runChan, List.foldl, chanStep] at h ⊢
          rw [h, pollChan_chanMeasure, produceCount]

/-- Producing frames while the slot is occupied only increments the drop
counter: the worker skips each fresh frame and keeps the stale entry
(src/platform/linux.rs lines 300-305). -/
theorem runChan_produce_on_full (gs : List Nat) :
    ∀ (s : ChanState) (x : Nat), s.slot = some x →
      runChan true s (gs.map ChanEvent.produce) =
        { s with drops := s.drops + gs.length } := by
  induction gs with
  | nil => intro s x _; simp [runChan]
  | cons g gs ih =>
      intro s x h
      have hw : workerIter true s g = { s with drops := s.drops + 1 } := by
        simp [workerIter, h]
      simp only [List.map_cons, runChan, List.foldl_cons, chanStep]
      rw [hw]
      have h2 := ih { s with drops := s.drops + 1 } x (by simp [h])
      simp only [runChan] at h2
      rw [h2]
      have harith : s.drops + 1 + gs.length = s.drops + (gs.length + 1) := by omega
      simp [harith]

/-- Producing a nonempty burst of frames into an empty slot sends only the
FIRST frame; every later frame of the burst is skipped and counted as a
drop while the first one still occupies the slot. -/
theorem runChan_produce_burst_from_empty (f : Nat) (rest : List Nat)
    (s : ChanState) (h : s.slot = none) :
    runChan true s ((f :: rest).map ChanEvent.produce) =
      { s with slot := some f
               sent := s.sent ++ [f]
               framesCount := s.framesCount + 1
               drops := s.drops + rest.length } := by
  have hw : workerIter true s f =
      { s with slot := some f
               sent := s.sent ++ [f]
               framesCount := s.framesCount + 1 } := by
    simp [workerIter, trySend, h]
  simp only [List.map_cons, runChan, List.foldl_cons, chanStep]
  rw [hw]
  have h2 := runChan_produce_on_full rest
    { s with slot := some f
             sent := s.sent ++ [f]
             framesCount := s.framesCount + 1 } f (by simp)
  simp only [runChan] at h2
  rw [h2]

/-- **C1 counterexample.** Three frames produced back-to-back faster than
the consumer drains, with stats enabled and a single poll at the end: the
consumer observes frame 1 — the stale entry the worker kept — not frame 3,
the last frame produced. The claim that the consumer "observes exactly the
last frame sent" (spec §4.3: the worker "drains the stale entry itself …
and inserts the fresh frame") is false of the code, which skips the fresh
frame instead (src/platform/linux.rs lines 300-305). -/
theorem single_slot_stale_frame_counterexample :
    (runChan true ChanState.start
        ([1, 2, 3].map ChanEvent.produce ++ [ChanEvent.poll])).observed = [1] ∧
    (1 : Nat) ≠ 3 := by
  decide

/-- **C1 (amended).** While the slot is occupied the worker drops the fresh
frame and keeps the stale entry, so for every trace in which the consumer
has drained the channel and the worker then produces a nonempty burst of
frames faster than the consumer drains, the consumer, polled once at the
end, observes exactly the FIRST frame of the burst (the oldest undrained
frame, not the most recent); the remaining burst frames are each counted as
drops, and with stats enabled the drop counter equals the total number of
produced frames minus the number of frames the consumer observed across all
polls. -/
theorem single_slot_oldest_frame_and_drop_count (pre : List ChanEvent)
    (fs : List Nat) (hfs : fs ≠ [])
    (hempty : (runChan true ChanState.start pre).slot = none) :
    (runChan true ChanState.start
        (pre ++ fs.map ChanEvent.produce ++ [ChanEvent.poll])).observed =
      (runChan true ChanState.start pre).observed ++ [fs.head hfs] ∧
    (runChan true ChanState.start
        (pre ++ fs.map ChanEvent.produce ++ [ChanEvent.poll])).drops =
      (runChan true ChanState.start pre).drops + (fs.length - 1) ∧
    (runChan true ChanState.start
        (pre ++ fs.map ChanEvent.produce ++ [ChanEvent.poll])).drops =
      produceCount (pre ++ fs.map ChanEvent.produce ++ [ChanEvent.poll]) -
        (runChan true ChanState.start
          (pre ++ fs.map ChanEvent.produce ++ [ChanEvent.poll])).observed.length := by
  obtain ⟨f, rest, rfl⟩ : ∃ f rest, fs = f :: rest := by
    cases fs with
    | nil => exact absurd rfl hfs
    | cons f rest => exact ⟨f, rest, rfl⟩
  set s1 := runChan true ChanState.start pre with hs1
  have hburst : runChan true ChanState.start
      (pre ++ (f :: rest).map ChanEvent.produce) =
      { s1 with slot := some f
                sent := s1.sent ++ [f]
                framesCount := s1.framesCount + 1
                drops := s1.drops + rest.length } := by
    have hsplit : runChan true ChanState.start
        (pre ++ (f :: rest).map ChanEvent.produce) =
        runChan true s1 ((f :: rest).map ChanEvent.produce) := by
      simp only [hs1, runChan, List.foldl_append]
    rw [hsplit, runChan_produce_burst_from_empty f rest s1 hempty]
  have hfull : runChan true ChanState.start
      (pre ++ (f :: rest).map ChanEvent.produce ++ [ChanEvent.poll]) =
      pollChan (runChan true ChanState.start
        (pre ++ (f :: rest).map ChanEvent.produce)) := by
    simp only [runChan, List.foldl_append, List.foldl, chanStep]
  have hpoll : pollChan (runChan true ChanState.start
      (pre ++ (f :: rest).map ChanEvent.produce)) =
      { s1 with slot := none
                observed := s1.observed ++ [f]
                sent := s1.sent ++ [f]
                framesCount := s1.framesCount + 1
                drops := s1.drops + rest.length } := by
    rw [hburst]
    simp [pollChan]
  refine ⟨?_, ?_, ?_⟩
  · rw [hfull, hpoll]
    simp
  · rw [hfull, hpoll]
    simp
  · have hm : chanMeasure (runChan true ChanState.start
        (pre ++ (f :: rest).map ChanEvent.produce ++ [ChanEvent.poll])) =
        produceCount (pre ++ (f :: rest).map ChanEvent.produce ++ [ChanEvent.poll]) := by
      rw [runChan_chanMeasure]
      simp [ChanState.start, chanMeasure]
    rw [hfull, hpoll] at hm ⊢
    simp only [chanMeasure, Option.isSome_none, if_neg Bool.false_ne_true] at hm
    simp only [List.length_append, List.length_cons, List.length_nil] at hm ⊢
    omega

/-- Witness for C1 (amended): frames 1, 2, 3 produced back-to-back after an
empty prefix, one final poll; the consumer observes exactly [1], the two
skipped frames are the drops, and drops = 3 − 1. -/
theorem single_slot_oldest_frame_and_drop_count_witness :
    ([1, 2, 3] : List Nat) ≠ [] ∧
    (runChan true ChanState.start []).slot = none ∧
    ((runChan true ChanState.start
        ([] ++ [1, 2, 3].map ChanEvent.produce ++ [ChanEvent.poll])).observed =
      (runChan true ChanState.start []).observed ++ [1] ∧
    (runChan true ChanState.start
        ([] ++ [1, 2, 3].map ChanEvent.produce ++ [ChanEvent.poll])).drops =
      (runChan true ChanState.start []).drops + (([1, 2, 3] : List Nat).length - 1) ∧
    (runChan true ChanState.start
        ([] ++ [1, 2, 3].map ChanEvent.produce ++ [ChanEvent.poll])).drops =
      produceCount ([] ++ [1, 2, 3].map ChanEvent.produce ++ [ChanEvent.poll]) -
        (runChan true ChanState.start
          ([] ++ [1, 2, 3].map ChanEvent.produce ++ [ChanEvent.poll])).observed.length) :=
  ⟨by decide, by decide,
    single_slot_oldest_frame_and_drop_count [] [1, 2, 3] (by decide) (by decide)⟩

/-- **C7.** On the candidate set {(1920×1080, Nv12, 60fps), (1920×1080, Yuyv,
30fps), (1280×720, Mjpeg, 60fps)} with no size cap, negotiation ranks the
1920×1080 Nv12 candidate first and selects it when the device accepts it. -/
theorem select_format_no_cap_picks_nv12_1080 :
    select_format [cand_nv12_1080, cand_yuyv_1080, cand_mjpg_720] none
      (fun _ => true) = some cand_nv12_1080 := by
  norm_num [select_format, select_format_ranked, sortByCmp, insertByCmp,
    compare_choice, format_rank, filter_max_size, filter_aspect,
    max_by_area_last, aspect_ratio, cand_nv12_1080, cand_yuyv_1080,
    cand_mjpg_720, List.filter, List.find?]

/-- **C4.** On the same candidate set with a 1280×720 cap, the size filter
removes both 1080p candidates before the sort, and negotiation selects the
1280×720 Mjpeg candidate when the device accepts it. -/
theorem select_format_with_cap_picks_mjpg_720 :
    filter_max_size (filter_aspect [cand_nv12_1080, cand_yuyv_1080, cand_mjpg_720])
        (some (1280, 720)) = [cand_mjpg_720] ∧
    select_format [cand_nv12_1080, cand_yuyv_1080, cand_mjpg_720]
      (some (1280, 720)) (fun _ => true) = some cand_mjpg_720 := by
  constructor <;>
    norm_num [select_format, select_format_ranked, sortByCmp, insertByCmp,
      compare_choice, format_rank, filter_max_size, filter_aspect,
      max_by_area_last, aspect_ratio, cand_nv12_1080, cand_yuyv_1080,
      cand_mjpg_720, List.filter, List.find?]

/-- **C2 counterexample.** The software MJPEG decode path (src/platform/
linux.rs lines 327-339) is a capture path that decodes a compressed (MJPEG)
source, yet the `VideoFrame` it builds for a 640×480 decode with no explicit
range signal carries `ColorRange::Limited`, not `Full`: it uses the plain
resolution default. -/
theorem mjpeg_software_frame_range_not_full :
    (linuxRawFrame Fourcc.MJPG 1280 720 0 (some (640, 480, [])) []).map
        (fun f => f.color.range) = some ColorRange.Limited ∧
    ColorRange.Limited ≠ ColorRange.Full := by
  decide

/-- **C2 (amended).** Frames produced by the hardware (GStreamer) MJPEG
decode pipeline carry `ColorRange::Full` regardless of resolution unless the
source colorimetry explicitly signals the Limited (16-235) range, in which
case they carry Limited; frames produced by the software MJPEG decode path
instead carry the resolution default, which is always Limited. -/
theorem mjpeg_decoded_range_default (width : Nat) (cmatrix : GstMatrix) :
    (∀ crange, crange ≠ GstRange.range16_235 →
        (color_info_from_gst width crange cmatrix true).range = ColorRange.Full) ∧
    (color_info_from_gst width GstRange.range16_235 cmatrix true).range =
      ColorRange.Limited ∧
    (∀ w h rgba fmtW fmtH fmtStride slice f,
        linuxRawFrame Fourcc.MJPG fmtW fmtH fmtStride (some (w, h, rgba)) slice =
          some f →
        f.color.range = ColorRange.Limited) := by
  refine ⟨fun crange hne => ?_, ?_, fun w h rgba fmtW fmtH fmtStride slice f hf => ?_⟩
  · cases crange with
    | range0_255 => cases cmatrix <;> rfl
    | range16_235 => exact absurd rfl hne
    | unknown => cases cmatrix <;> rfl
  · cases cmatrix <;> rfl
  · simp only [linuxRawFrame] at hf
    cases hf
    rfl

/-- Witness for C2 (amended): a 640-wide MJPEG hardware decode with no
colorimetry signal gets Full range, and a software-decoded MJPEG frame gets
Limited range. -/
theorem mjpeg_decoded_range_default_witness :
    (GstRange.unknown ≠ GstRange.range16_235 ∧
      (color_info_from_gst 640 GstRange.unknown GstMatrix.unknown true).range =
        ColorRange.Full) ∧
    (linuxRawFrame Fourcc.MJPG 1280 720 0 (some (640, 480, [9])) [] =
        some ⟨640, 480, VideoFormat.Rgba, 2560, 0,
          ColorInfo.default_for_size 640, [9]⟩ ∧
      (⟨640, 480, VideoFormat.Rgba, 2560, 0, ColorInfo.default_for_size 640,
          ([9] : List Nat)⟩ : VideoFrame).color.range = ColorRange.Limited) :=
  ⟨⟨by decide,
      (mjpeg_decoded_range_default 640 GstMatrix.unknown).1 GstRange.unknown
        (by decide)⟩,
    ⟨by decide,
      (mjpeg_decoded_range_default 640 GstMatrix.unknown).2.2 640 480 [9] 1280
        720 0 [] _ (by decide)⟩⟩

/-- **C5.** On every capture path — the raw V4L loop (with positive
negotiated width), the GStreamer hardware-decode loop (with positive plane-1
stride), and the Media Foundation loop (with positive stride) — every
constructed `VideoFrame` satisfies `uv_stride > 0` iff its format is
`Nv12`. -/
theorem frame_uv_stride_pos_iff_nv12 :
    (∀ fourcc width height fmtStride decodeResult slice f, 0 < width →
        linuxRawFrame fourcc width height fmtStride decodeResult slice = some f →
        (0 < f.uv_stride ↔ f.format = VideoFormat.Nv12)) ∧
    (∀ gfmt width height stride0 stride1 color buf f, 0 < stride1 →
        gstFrame gfmt width height stride0 stride1 color buf = some f →
        (0 < f.uv_stride ↔ f.format = VideoFormat.Nv12)) ∧
    (∀ subtype width height stride data f, 0 < stride →
        windowsFrame subtype width height stride data = some f →
        (0 < f.uv_stride ↔ f.format = VideoFormat.Nv12)) := by
  refine ⟨fun fourcc width height fmtStride decodeResult slice f hw hf => ?_,
    fun gfmt width height stride0 stride1 color buf f hs hf => ?_,
    fun subtype width height stride data f hs hf => ?_⟩
  · cases fourcc with
    | YUYV => cases hf; simp
    | NV12 =>
        cases hf
        simp only [linuxRawStride]
        by_cases h0 : fmtStride = 0 <;> simp [h0] <;> omega
    | MJPG =>
        cases decodeResult with
        | none => exact absurd hf (by simp [linuxRawFrame])
        | some r =>
            obtain ⟨w, h, rgba⟩ := r
            simp only [linuxRawFrame] at hf
            cases hf
            simp
    | Other => exact absurd hf (by simp [linuxRawFrame])
  · cases gfmt with
    | nv12 => cases hf; simpa using hs
    | yuy2 => cases hf; simp
    | rgba => cases hf; simp
    | other => exact absurd hf (by simp [gstFrame])
  · cases subtype with
    | nv12 => cases hf; simpa using hs
    | yuy2 => cases hf; simp
    | rgb32 => cases hf; simp
    | other => exact absurd hf (by simp [windowsFrame])

theorem rgb24From_length (pixels : List Nat) :
    ∀ k i, (rgb24From pixels i k).length = 4 * k := by
  intro k
  induction k with
  | zero => intro i; simp [rgb24From]
  | succ k ih => intro i; simp [rgb24From, ih]; omega

theorem l8From_length (pixels : List Nat) :
    ∀ k i, (l8From pixels i k).length = 4 * k := by
  intro k
  induction k with
  | zero => intro i; simp [l8From]
  | succ k ih => intro i; simp [l8From, ih]; omega

theorem rgb24From_alpha (pixels : List Nat) :
    ∀ k i j, j < k → (rgb24From pixels i k).getD (4 * j + 3) 0 = 255 := by
  intro k
  induction k with
  | zero => intro i j hj; omega
  | succ k ih =>
      intro i j hj
      cases j with
      | zero => simp [rgb24From, List.getD]
      | succ j =>
          have h4 : 4 * (j + 1) + 3 = 4 * j + 3 + 1 + 1 + 1 + 1 := by omega
          rw [h4]
          simp only [rgb24From, List.getD_cons_succ]
          exact ih (i + 1) j (by omega)

theorem l8From_alpha (pixels : List Nat) :
    ∀ k i j, j < k → (l8From pixels i k).getD (4 * j + 3) 0 = 255 := by
  intro k
  induction k with
  | zero => intro i j hj; omega
  | succ k ih =>
      intro i j hj
      cases j with
      | zero => simp [l8From, List.getD]
      | succ j =>
          have h4 : 4 * (j + 1) + 3 = 4 * j + 3 + 1 + 1 + 1 + 1 := by omega
          rw [h4]
          simp only [l8From, List.getD_cons_succ]
          exact ih (i + 1) j (by omega)

/-- **C9.** `decode_mjpeg` returns `Ok` exactly when the decoded pixel
format is RGB24 or L8, the pixel-count multiplications fit in `usize`, and
enough decoded pixel bytes are present; in that case the returned buffer has
exactly `width*height*4` bytes and every fourth byte (alpha) is 255. In
every other case — an unsupported decoded pixel format, a size mismatch, or
an arithmetic overflow of the pixel count — it returns `Err` (the function
is total, so it never panics). -/
theorem decode_mjpeg_ok_characterization (pfmt : JpegPixelFormat)
    (pixels : List Nat) (width height : Nat) :
    ((∃ v, decode_mjpeg pfmt pixels width height = Except.ok v) ↔
      width * height ≤ USIZE_MAX ∧
        ((pfmt = JpegPixelFormat.RGB24 ∧ width * height * 3 ≤ USIZE_MAX ∧
            width * height * 3 ≤ pixels.length) ∨
          (pfmt = JpegPixelFormat.L8 ∧ width * height ≤ pixels.length))) ∧
    (∀ w h rgba,
        decode_mjpeg pfmt pixels width height = Except.ok (w, h, rgba) →
        w = width ∧ h = height ∧ rgba.length = width * height * 4 ∧
          ∀ j, j < width * height → rgba.getD (4 * j + 3) 0 = 255) := by
  by_cases hwh : width * height ≤ USIZE_MAX
  · cases pfmt with
    | RGB24 =>
        by_cases h3 : width * height * 3 ≤ USIZE_MAX
        · by_cases hlen : pixels.length < width * height * 3
          · constructor
            · simp [decode_mjpeg, checkedMul, hwh, h3, hlen]
            · intro w h rgba hok
              simp [decode_mjpeg, checkedMul, hwh, h3, hlen] at hok
          · constructor
            · simp [decode_mjpeg, checkedMul, hwh, h3, hlen]
              omega
            · intro w h rgba hok
              simp only [decode_mjpeg, checkedMul, if_pos hwh, if_pos h3,
                if_neg hlen, Except.ok.injEq, Prod.mk.injEq] at hok
              obtain ⟨hw, hh, hr⟩ := hok
              refine ⟨hw.symm, hh.symm, ?_, ?_⟩
              · rw [← hr, rgb24_to_rgba, rgb24From_length]
                omega
              · intro j hj
                rw [← hr, rgb24_to_rgba]
                exact rgb24From_alpha _ _ 0 j hj
        · constructor
          · simp [decode_mjpeg, checkedMul, hwh, h3]
          · intro w h rgba hok
            simp [decode_mjpeg, checkedMul, hwh, h3] at hok
    | L8 =>
        by_cases hlen : pixels.length < width * height
        · constructor
          · simp [decode_mjpeg, checkedMul, hwh, hlen]
          · intro w h rgba hok
            simp [decode_mjpeg, checkedMul, hwh, hlen] at hok
        · constructor
          · simp [decode_mjpeg, checkedMul, hwh, hlen]
            omega
          · intro w h rgba hok
            simp only [decode_mjpeg, checkedMul, if_pos hwh, if_neg hlen,
              Except.ok.injEq, Prod.mk.injEq] at hok
            obtain ⟨hw, hh, hr⟩ := hok
            refine ⟨hw.symm, hh.symm, ?_, ?_⟩
            · rw [← hr, l8_to_rgba, l8From_length]
              omega
            · intro j hj
              rw [← hr, l8_to_rgba]
              exact l8From_alpha _ _ 0 j hj
    | other =>
        constructor
        · simp [decode_mjpeg, checkedMul, hwh]
        · intro w h rgba hok
          simp [decode_mjpeg, checkedMul, hwh] at hok
  · constructor
    · simp [decode_mjpeg, checkedMul, hwh]
    · intro w h rgba hok
      simp [decode_mjpeg, checkedMul, hwh] at hok

/-- Witness for C9: decoding a 1×1 RGB24 output `[9, 9, 9]` succeeds with
buffer `[9, 9, 9, 255]`, whose alpha byte is 255. -/
theorem decode_mjpeg_ok_characterization_witness :
    decode_mjpeg JpegPixelFormat.RGB24 [9, 9, 9] 1 1 =
      Except.ok (1, 1, [9, 9, 9, 255]) ∧
    ([9, 9, 9, 255] : List Nat).getD 3 0 = 255 :=
  ⟨by rfl,
    by
      have h :=
        (decode_mjpeg_ok_characterization JpegPixelFormat.RGB24 [9, 9, 9] 1 1).2
          1 1 [9, 9, 9, 255] (by rfl)
      exact h.2.2.2 0 (by omega)⟩

/-- Witness for C5: a 2×2 NV12 frame from the raw V4L path with a
device-reported stride of 0 has `uv_stride = 2 > 0` and format `Nv12`. -/
theorem frame_uv_stride_pos_iff_nv12_witness :
    0 < 2 ∧
    linuxRawFrame Fourcc.NV12 2 2 0 none [] =
      some ⟨2, 2, VideoFormat.Nv12, 2, 2, ColorInfo.default_for_size 2, []⟩ ∧
    (0 < (⟨2, 2, VideoFormat.Nv12, 2, 2, ColorInfo.default_for_size 2,
        ([] : List Nat)⟩ : VideoFrame).uv_stride ↔
      (⟨2, 2, VideoFormat.Nv12, 2, 2, ColorInfo.default_for_size 2,
        ([] : List Nat)⟩ : VideoFrame).format = VideoFormat.Nv12) :=
  ⟨by decide, by decide,
    frame_uv_stride_pos_iff_nv12.1 Fourcc.NV12 2 2 0 none [] _ (by decide)
      (by decide)⟩

theorem bytesPerRow_le_paddedStrideOf (b : Nat) : b ≤ paddedStrideOf b := by
  simp only [paddedStrideOf, COPY_BYTES_PER_ROW_ALIGNMENT]
  omega

theorem getD_replicate_zero (n j : Nat) :
    (List.replicate n (0 : Nat)).getD j 0 = 0 := by
  by_cases h : j < n
  · rw [List.getD_eq_getElem _ _ (by simpa using h)]
    simp
  · rw [List.getD_eq_default _ _ (by simpa using le_of_not_lt h)]

theorem vecResize_length (l : List Nat) (n v : Nat) :
    (vecResize l n v).length = n := by
  unfold vecResize
  by_cases h : n ≤ l.length
  · simp [h]
  · simp [h]
    omega

theorem vecResize_nil (n v : Nat) :
    vecResize [] n v = List.replicate n v := by
  cases n with
  | zero => simp [vecResize]
  | succ k => simp [vecResize]

/-- Row `y` of a height-`height` staging buffer ends within the buffer. -/
theorem row_segment_le (p y height : Nat) (hy : y < height) :
    y * p + p ≤ p * height := by
  have h1 : (y + 1) * p ≤ height * p := Nat.mul_le_mul_right p hy
  calc y * p + p = (y + 1) * p := by ring
    _ ≤ height * p := h1
    _ = p * height := Nat.mul_comm height p

/-- Reading inside a `drop`/`take` window of a list is reading the list at
the shifted index. -/
theorem getD_drop_take (l : List Nat) (a k j : Nat) (hj : j < k)
    (hb : a + j < l.length) :
    ((l.drop a).take k).getD j 0 = l.getD (a + j) 0 := by
  have hlen : j < ((l.drop a).take k).length := by
    simp only [List.length_take, List.length_drop]
    omega
  rw [List.getD_eq_getElem _ _ hlen, List.getElem_take, List.getElem_drop,
    List.getD_eq_getElem _ _ hb]

theorem repackRow_length (b p : Nat) (data staged : List Nat) (y : Nat)
    (hbp : b ≤ p) (hrow : y * p + p ≤ staged.length) :
    (repackRow b p data staged y).length = p := by
  simp [repackRow]
  omega

theorem repackRow_getD (b p : Nat) (data staged : List Nat) (y i : Nat)
    (hi : i < p) (hrow : y * p + p ≤ staged.length) :
    (repackRow b p data staged y).getD i 0 =
      if i < b ∧ y * b + i < data.length then data.getD (y * b + i) 0
      else staged.getD (y * p + i) 0 := by
  unfold repackRow
  by_cases hpres : i < ((data.drop (y * b)).take b).length
  · rw [List.getD_append _ _ _ _ hpres]
    have hlen := hpres
    simp only [List.length_take, List.length_drop] at hlen
    have hib : i < b := lt_of_lt_of_le hlen (min_le_left _ _)
    have hid : y * b + i < data.length := by
      have := lt_of_lt_of_le hlen (min_le_right _ _)
      omega
    rw [if_pos ⟨hib, hid⟩, List.getD_eq_getElem _ _ hpres, List.getElem_take,
      List.getElem_drop, List.getD_eq_getElem _ _ hid]
  · have hple : ((data.drop (y * b)).take b).length ≤ i := le_of_not_lt hpres
    have hmin : ((data.drop (y * b)).take b).length =
        min b (data.length - y * b) := by
      simp
    have hc : ¬(i < b ∧ y * b + i < data.length) := by omega
    rw [List.getD_append_right _ _ _ _ hple, if_neg hc,
      getD_drop_take staged (y * p + ((data.drop (y * b)).take b).length)
        (p - ((data.drop (y * b)).take b).length)
        (i - ((data.drop (y * b)).take b).length) (by omega) (by omega),
      show y * p + ((data.drop (y * b)).take b).length +
          (i - ((data.drop (y * b)).take b).length) = y * p + i from by omega]

theorem repackRowsFrom_length (b p height : Nat) (data staged : List Nat)
    (hbp : b ≤ p) (hsl : staged.length = p * height) :
    ∀ k y, y + k ≤ height →
      (repackRowsFrom b p data staged y k).length = p * k := by
  intro k
  induction k with
  | zero => intro y _; simp [repackRowsFrom]
  | succ k ih =>
      intro y hyk
      have hrow : y * p + p ≤ staged.length := by
        rw [hsl]
        exact row_segment_le p y height (by omega)
      simp [repackRowsFrom, repackRow_length b p data staged y hbp hrow,
        ih (y + 1) (by omega)]
      ring

theorem repackRowsFrom_getD (b p height : Nat) (data staged : List Nat)
    (hbp : b ≤ p) (hsl : staged.length = p * height) :
    ∀ k y r i, r < k → i < p → y + k ≤ height →
      (repackRowsFrom b p data staged y k).getD (r * p + i) 0 =
        (repackRow b p data staged (y + r)).getD i 0 := by
  intro k
  induction k with
  | zero => intro y r i hr _ _; omega
  | succ k ih =>
      intro y r i hr hi hyk
      have hrow : y * p + p ≤ staged.length := by
        rw [hsl]
        exact row_segment_le p y height (by omega)
      cases r with
      | zero =>
          simp only [repackRowsFrom, Nat.zero_mul, Nat.zero_add, Nat.add_zero]
          rw [List.getD_append _ _ _ _
            (by rw [repackRow_length b p data staged y hbp hrow]; omega)]
      | succ r =>
          simp only [repackRowsFrom]
          rw [add_one_mul]
          rw [List.getD_append_right _ _ _ _
            (by rw [repackRow_length b p data staged y hbp hrow]; omega)]
          rw [repackRow_length b p data staged y hbp hrow]
          have hidx : r * p + p + i - p = r * p + i := by omega
          rw [hidx, ih (y + 1) r i (by omega) hi (by omega),
            show y + 1 + r = y + (r + 1) from by omega]

set_option maxRecDepth 100000 in
/-- **C3 counterexample.** A 4-byte source buffer uploaded as 2 rows of 4
bytes (the trailing row missing) into a staging buffer still holding 7s
from a previous upload: the first byte of the missing row in the repacked
output is 7, not 0 — `Vec::resize` zero-fills only growth and the repack
path never clears `self.staging` (src/render.rs lines 928-938), so bytes
not represented in the input keep stale staging content. -/
theorem write_texture_padded_stale_staging_counterexample :
    (write_texture_padded 4 2 [1, 2, 3, 4]
        (List.replicate 512 7)).uploaded.getD 256 0 = 7 ∧
    (7 : Nat) ≠ 0 := by
  decide

/-- **C3 (amended).** For every upload of a source buffer shorter than
`stride × height`, `write_texture_padded` takes the repack branch: the
staging output has exactly the required padded size
`padded_stride × height`, and each output byte at row `y`, offset `i`
equals the corresponding input byte when that byte exists (so only
in-bounds input bytes are ever read) and otherwise the byte the reused
staging buffer already held at that position after its zero-extending
`resize` — in general a stale byte from the previous upload, and zero
whenever the staging buffer starts empty (its initial state, and its state
after any fast-path upload, which clears it). -/
theorem write_texture_padded_short_buffer (bytesPerRow height : Nat)
    (data staging : List Nat) (hshort : data.length < bytesPerRow * height) :
    (write_texture_padded bytesPerRow height data staging).rowStride =
      paddedStrideOf bytesPerRow ∧
    (write_texture_padded bytesPerRow height data staging).uploaded.length =
      paddedStrideOf bytesPerRow * height ∧
    (∀ y i, y < height → i < paddedStrideOf bytesPerRow →
      (write_texture_padded bytesPerRow height data staging).uploaded.getD
          (y * paddedStrideOf bytesPerRow + i) 0 =
        if i < bytesPerRow ∧ y * bytesPerRow + i < data.length then
          data.getD (y * bytesPerRow + i) 0
        else
          (vecResize staging (paddedStrideOf bytesPerRow * height) 0).getD
            (y * paddedStrideOf bytesPerRow + i) 0) ∧
    (staging = [] →
      ∀ y i, y < height → i < paddedStrideOf bytesPerRow →
        (write_texture_padded bytesPerRow height data staging).uploaded.getD
            (y * paddedStrideOf bytesPerRow + i) 0 =
          if i < bytesPerRow ∧ y * bytesPerRow + i < data.length then
            data.getD (y * bytesPerRow + i) 0
          else 0) := by
  have hbp := bytesPerRow_le_paddedStrideOf bytesPerRow
  have hcond : ¬(¬bytesPerRow % COPY_BYTES_PER_ROW_ALIGNMENT ≠ 0 ∧
      ¬data.length < bytesPerRow * height) := by
    intro h
    exact h.2 hshort
  have hsl : (vecResize staging (paddedStrideOf bytesPerRow * height) 0).length =
      paddedStrideOf bytesPerRow * height := vecResize_length _ _ _
  have hmain : ∀ y i, y < height → i < paddedStrideOf bytesPerRow →
      (write_texture_padded bytesPerRow height data staging).uploaded.getD
          (y * paddedStrideOf bytesPerRow + i) 0 =
        if i < bytesPerRow ∧ y * bytesPerRow + i < data.length then
          data.getD (y * bytesPerRow + i) 0
        else
          (vecResize staging (paddedStrideOf bytesPerRow * height) 0).getD
            (y * paddedStrideOf bytesPerRow + i) 0 := by
    intro y i hy hi
    simp only [write_texture_padded, if_neg hcond]
    rw [repackRowsFrom_getD bytesPerRow (paddedStrideOf bytesPerRow) height data
        _ hbp hsl height 0 y i hy hi (by omega), Nat.zero_add]
    have hrow : y * paddedStrideOf bytesPerRow + paddedStrideOf bytesPerRow ≤
        (vecResize staging (paddedStrideOf bytesPerRow * height) 0).length := by
      rw [hsl]
      exact row_segment_le _ y height hy
    exact repackRow_getD _ _ data _ y i hi hrow
  refine ⟨?_, ?_, hmain, ?_⟩
  · simp only [write_texture_padded, if_neg hcond]
  · simp only [write_texture_padded, if_neg hcond]
    exact repackRowsFrom_length bytesPerRow (paddedStrideOf bytesPerRow) height
      data _ hbp hsl height 0 (by omega)
  · intro hstg y i hy hi
    rw [hmain y i hy hi, hstg]
    by_cases hc : i < bytesPerRow ∧ y * bytesPerRow + i < data.length
    · rw [if_pos hc, if_pos hc]
    · rw [if_neg hc, if_neg hc, vecResize_nil, getD_replicate_zero]

/-- Witness for C3 (amended): a 5-byte buffer uploaded as 2 rows of 4 bytes
into an empty staging buffer; the staging output is 2 rows of 256 bytes and
the byte at row 1 offset 0 is the source byte at index 4. -/
theorem write_texture_padded_short_buffer_witness :
    ([1, 2, 3, 4, 5] : List Nat).length < 4 * 2 ∧
    (write_texture_padded 4 2 [1, 2, 3, 4, 5] []).rowStride = paddedStrideOf 4 ∧
    (write_texture_padded 4 2 [1, 2, 3, 4, 5] []).uploaded.length =
      paddedStrideOf 4 * 2 ∧
    (write_texture_padded 4 2 [1, 2, 3, 4, 5] []).uploaded.getD
        (1 * paddedStrideOf 4 + 0) 0 =
      if 0 < 4 ∧ 1 * 4 + 0 < ([1, 2, 3, 4, 5] : List Nat).length then
        ([1, 2, 3, 4, 5] : List Nat).getD (1 * 4 + 0) 0
      else 0 :=
  ⟨by decide,
    (write_texture_padded_short_buffer 4 2 [1, 2, 3, 4, 5] [] (by decide)).1,
    (write_texture_padded_short_buffer 4 2 [1, 2, 3, 4, 5] [] (by decide)).2.1,
    (write_texture_padded_short_buffer 4 2 [1, 2, 3, 4, 5] [] (by decide)).2.2.2
      rfl 1 0 (by decide) (by decide)⟩

end CaptureCard
